import Mathlib

/-!
Verification development for the treeheroes data-ingestion pipeline
(scripts/scrape.mjs and the GeoJSON window filter).

The JavaScript source is shallowly embedded: dates are modelled as the
millisecond value of the JS `Date` object (an `Int`), JS objects used as
string-keyed dictionaries are modelled as insertion-ordered association
lists (`List (String × α)`), and JS `Set` is modelled as an order-preserving
deduplicated list.  External effects (the Census geocoding request, the
file system) are modelled as explicit parameters and resulting values.
-/

/-- Milliseconds per UTC day; JS time arithmetic in the source uses
`24 * 60 * 60 * 1000`. -/
def msPerDay : Int := 86400000

/-- Days since 0000-03-01 of the proleptic Gregorian civil date `(y, m, d)`
with `1 ≤ m ≤ 12`, `1 ≤ d` (days beyond the month length simply continue
counting, matching JS date rollover).  Standard era-based civil-calendar
counting; all inputs reaching this function have `y ≥ 1`. -/
def civilDayNumber (y m d : Nat) : Nat :=
  let yy := if m ≤ 2 then y - 1 else y
  let era := yy / 400
  let yoe := yy % 400
  let mp := (m + 9) % 12
  let doy := (153 * mp + 2) / 5 + (d - 1)
  let doe := yoe * 365 + yoe / 4 - yoe / 100 + doy
  era * 146097 + doe

/-- Day number of the UTC epoch 1970-01-01 in the `civilDayNumber` scale. -/
def epochDayNumber : Nat := 719468

/-- The JS `Date.UTC(yyyy, mo, dd)` value in milliseconds, for a year
argument `yyyy ≥ 1`, a zero-based month argument `mo ≥ 0` and a day
argument `dd ≥ 1` (the only shapes produced by the source after its
zero-component checks).  JS maps year arguments `0..99` to `1900..1999`,
rolls months beyond 11 into later years, and rolls days beyond the month
length into later months. -/
def jsDateUTC (yyyy mo dd : Nat) : Int :=
  let yr := if yyyy ≤ 99 then yyyy + 1900 else yyyy
  let y := yr + mo / 12
  let m := mo % 12 + 1
  msPerDay * ((civilDayNumber y m dd : Int) - (epochDayNumber : Int))

/-- Greedy take of up to `n` leading decimal digits. -/
def takeDigitsUpTo (n : Nat) (cs : List Char) : List Char × List Char :=
  match n, cs with
  | 0, rest => ([], rest)
  | _ + 1, [] => ([], [])
  | k + 1, c :: rest =>
    if c.isDigit then
      let p := takeDigitsUpTo k rest
      (c :: p.1, p.2)
    else ([], c :: rest)

/-- Candidate matches of the regex fragment `\d{1,2}` at the head of the
input, in greedy backtracking order (two digits first, then one). -/
def monthCands (cs : List Char) : List (List Char × List Char) :=
  match cs with
  | [] => []
  | [a] => if a.isDigit then [([a], [])] else []
  | a :: b :: rest =>
    if a.isDigit then
      if b.isDigit then [([a, b], rest), ([a], b :: rest)]
      else [([a], b :: rest)]
    else []

/-- Match of the regex separator class (a slash or hyphen) at the head of
the input. -/
def sepMatch (cs : List Char) : Option (List Char) :=
  match cs with
  | c :: rest => if c = '/' ∨ c = '-' then some rest else none
  | [] => none

/-- Match of the trailing regex fragment `\d{2,4}`: greedy, and since
nothing follows it in the pattern the maximal digit run (capped at 4)
is taken; it succeeds iff at least two digits are available. -/
def yearMatch (cs : List Char) : Option (List Char) :=
  let p := takeDigitsUpTo 4 cs
  if 2 ≤ p.1.length then some p.1 else none

/-- Attempt to match the source's date regex (one or two digits, a slash or
hyphen, one or two digits, a slash or hyphen, two to four digits) anchored
at the head of the input, with JS backtracking semantics, returning the
three capture groups. -/
def matchAt (cs : List Char) : Option (List Char × List Char × List Char) :=
  (monthCands cs).findSome? fun mp =>
    match sepMatch mp.2 with
    | none => none
    | some r2 =>
      (monthCands r2).findSome? fun dp =>
        match sepMatch dp.2 with
        | none => none
        | some r4 =>
          match yearMatch r4 with
          | none => none
          | some ys => some (mp.1, dp.1, ys)

/-- Leftmost match of the date regex in the input, as in JS
`String.prototype.match` without the global flag. -/
def scanMatch : List Char → Option (List Char × List Char × List Char)
  | [] => none
  | c :: rest =>
    match matchAt (c :: rest) with
    | some r => some r
    | none => scanMatch rest

/-- Numeric value of a digit string, as JS `Number` on an all-digit string. -/
def digitsToNat (ds : List Char) : Nat :=
  ds.foldl (fun a c => a * 10 + (c.toNat - 48)) 0

/-- Embedding of `parseUsDateToUtc` (scripts/scrape.mjs): match the date
regex, widen two-digit years by `+2000`, reject zero components, and build
a UTC instant with `Date.UTC(yyyy, mm - 1, dd)`.  The result is the
millisecond value of the returned `Date`; `none` models the `null` return.
The source's final `isNaN` check is dead code here: matched years are at
most four digits, so the instant is always far inside the JS date range. -/
def parseUsDateToUtc (s : String) : Option Int :=
  match scanMatch s.data with
  | none => none
  | some (mS, dS, yS) =>
    let mm := digitsToNat mS
    let dd := digitsToNat dS
    let yyyy := if yS.length = 2 then digitsToNat yS + 2000 else digitsToNat yS
    if yyyy = 0 ∨ mm = 0 ∨ dd = 0 then none
    else some (jsDateUTC yyyy (mm - 1) dd)

/-- Embedding of `sameUtcDay`: two optional instants fall on the same UTC
calendar day.  Equality of the `getUTCFullYear`/`getUTCMonth`/`getUTCDate`
triple is equivalent to equality of the floor-division day number, since a
UTC day is exactly `msPerDay` milliseconds in JS time. -/
def sameUtcDay (a b : Option Int) : Bool :=
  match a, b with
  | some x, some y => x.fdiv msPerDay = y.fdiv msPerDay
  | _, _ => false

/-- Embedding of `withinLastNDaysUtc`: `nowMid` is the current UTC midnight
computed by the source from the wall clock, passed explicitly here; a
present date qualifies iff it is at or after `nowMid - (days - 1)` days.
There is no upper bound in the source. -/
def withinLastNDaysUtc (dateUtc : Option Int) (days : Nat) (nowMid : Int) : Bool :=
  match dateUtc with
  | none => false
  | some t => nowMid - ((days : Int) - 1) * msPerDay ≤ t


/-- JS object property assignment `dict[k] = v` (and JS `Map.set`) on a
string-keyed container: an existing key keeps its position and gets the new
value, a new key is appended (JS string-key insertion order).  Keys of a JS
object or `Map` are unique, so replacing the first occurrence models the
replacement exactly. -/
def dictInsert {α : Type} (m : List (String × α)) (k : String) (v : α) : List (String × α) :=
  match m with
  | [] => [(k, v)]
  | p :: rest => if p.1 = k then (k, v) :: rest else p :: dictInsert rest k v

/-- JS object property read `dict[k]` on a string-keyed plain object:
`none` models an absent property (`undefined`). -/
def dictGet {α : Type} (m : List (String × α)) (k : String) : Option α :=
  (m.find? (fun p => decide (p.1 = k))).map (fun p => p.2)

/-- JS `ToPropertyKey` for the address values used as dictionary keys in the
source: a string is used as-is, and the JS `null` stored for a missing
address is converted to the property key string `"null"`. -/
def propKey (a : Option String) : String :=
  match a with
  | some s => s
  | none => "null"

/-- A resolved coordinate pair `[lon, lat]`.  The numeric values never enter
any computation of the pipeline, so they are modelled as a pair of
integers. -/
def Coords : Type := Int × Int

deriving instance DecidableEq, Repr for Coords

/-- The geocode cache object (data/geocode-cache.json): address string to
either a coordinate pair or the explicit negative marker `null` (modelled
as `none`); an absent key is an absent list entry. -/
def GeoCache : Type := List (String × Option Coords)

deriving instance DecidableEq, Repr for GeoCache

/-- Outcome of the single external Census geocoder request that
`geocodeOneLine` may perform: a match with coordinates, a response without
an address match, or a thrown error (fetch failure, JSON failure or the
10-second abort timeout). -/
inductive ExtOutcome : Type where
  | success (c : Coords)
  | noMatch
  | fetchError
deriving DecidableEq, Repr

/-- Result of one `geocodeOneLine` call: the returned value, the cache
afterwards, and whether the external request was attempted. -/
structure GeoResult : Type where
  ret : Option Coords
  cache : GeoCache
  externalCalled : Bool
deriving DecidableEq, Repr

/-- True iff the string contains at least one ASCII letter, as the source's
letter regex test. -/
def hasLetter (s : String) : Bool :=
  s.data.any (fun c => c.isAlpha)

/-- JS `String.prototype.trim`: strip leading and trailing whitespace.
Addresses only ever contain ordinary spacing characters, for which JS and
this model agree. -/
def jsTrim (s : String) : String :=
  String.mk (((s.data.dropWhile Char.isWhitespace).reverse.dropWhile
    Char.isWhitespace).reverse)

/-- Embedding of `geocodeOneLine(addr, cache)`.  The address argument is
`Option String` (`none` models `null`/`undefined`).  Faithful points: the
cache check `if (cache[addr]) return cache[addr]` is a JS truthiness test,
so it only short-circuits on a stored coordinate array — a stored negative
`null` entry is falsy and falls through; the sanity filter requires an
ASCII letter and trimmed length at least 5; every failure mode of the
external request is caught and stored as a negative entry.  `ext` is the
outcome the external service would produce for this request. -/
def geocodeOneLine (addr : Option String) (cache : GeoCache) (ext : ExtOutcome) : GeoResult :=
  match addr with
  | none => { ret := none, cache := cache, externalCalled := false }
  | some a =>
    if a = "" then { ret := none, cache := cache, externalCalled := false }
    else
      match dictGet cache a with
      | some (some c) => { ret := some c, cache := cache, externalCalled := false }
      | _ =>
        if ¬ hasLetter a ∨ (jsTrim a).length < 5 then
          { ret := none, cache := dictInsert cache a none, externalCalled := false }
        else
          match ext with
          | ExtOutcome.success c =>
            { ret := some c, cache := dictInsert cache a (some c), externalCalled := true }
          | ExtOutcome.noMatch =>
            { ret := none, cache := dictInsert cache a none, externalCalled := true }
          | ExtOutcome.fetchError =>
            { ret := none, cache := dictInsert cache a none, externalCalled := true }

/-- One scraped row as produced by `scrapeRecords` (after optional
detail-page enrichment); `none` models a `null`/`undefined` field. -/
structure RawRec : Type where
  record : Option String := none
  address : Option String := none
  date : Option String := none
  status : Option String := none
  permitType : Option String := none
  description : Option String := none
  owner : Option String := none
  tree_dbh : Option String := none
  tree_location : Option String := none
  reason_removal : Option String := none
  tree_description : Option String := none
  tree_number : Option String := none
  species : Option String := none
deriving DecidableEq, Repr

/-- One store row, as the merge step's `obj` literal (and as persisted per
NDJSON line): the stable `key`, the passthrough fields normalised with
`|| null`, and the optional coordinates. -/
structure StoreRow : Type where
  key : String
  date : Option String := none
  record : Option String := none
  address : Option String := none
  status : Option String := none
  description : Option String := none
  owner : Option String := none
  tree_dbh : Option String := none
  tree_location : Option String := none
  reason_removal : Option String := none
  tree_description : Option String := none
  tree_number : Option String := none
  species : Option String := none
  coords : Option Coords := none
deriving DecidableEq, Repr

/-- JS `x || null` on a nullable string: the empty string is falsy and
collapses to `null`. -/
def orNull (x : Option String) : Option String :=
  match x with
  | some s => if s = "" then none else some s
  | none => none

/-- JS template interpolation of `x || ""` on a nullable string. -/
def strOrEmpty (x : Option String) : String :=
  match x with
  | some s => s
  | none => ""

/-- Embedding of `keyOf` (scripts/scrape.mjs): the record number when it is
a non-empty string, else the composite of address and date joined by a
pipe. -/
def keyOf (r : RawRec) : String :=
  match r.record with
  | some s => if s = "" then strOrEmpty r.address ++ "|" ++ strOrEmpty r.date else s
  | none => strOrEmpty r.address ++ "|" ++ strOrEmpty r.date

/-- The same key computation applied to a persisted store row, as the
`keyOf` fallback inside the `byKey` map construction does. -/
def keyOfRow (o : StoreRow) : String :=
  match o.record with
  | some s => if s = "" then strOrEmpty o.address ++ "|" ++ strOrEmpty o.date else s
  | none => strOrEmpty o.address ++ "|" ++ strOrEmpty o.date

/-- The map key used when loading the store: `o.key || keyOf(o)` — the
stored key field unless it is falsy (modelled: empty). -/
def effKey (o : StoreRow) : String :=
  if o.key = "" then keyOfRow o else o.key

/-- The `obj` literal built for each filtered row before the merge
(lines 780-795 of the script): every descriptive field passes through
`|| null`, the key is `keyOf(r)`, and the coordinates are the geocoding
dictionary entry for the row's address or `null`. -/
def objOf (r : RawRec) (coords : Option Coords) : StoreRow :=
  { key := keyOf r
    date := orNull r.date
    record := orNull r.record
    address := orNull r.address
    status := orNull r.status
    description := orNull r.description
    owner := orNull r.owner
    tree_dbh := orNull r.tree_dbh
    tree_location := orNull r.tree_location
    reason_removal := orNull r.reason_removal
    tree_description := orNull r.tree_description
    tree_number := orNull r.tree_number
    species := orNull r.species
    coords := coords }

/-- The comparable view of a row used by the merge's change detection: the
object with its `key` property deleted, compared by `JSON.stringify`
equality, which for these fixed-shape objects coincides with field-wise
equality. -/
def comparableOf (o : StoreRow) : StoreRow :=
  { o with key := "" }

/-- Loading the store into `byKey`: a JS `Map` built from
`[o.key || keyOf(o), o]` pairs in file order (insertion-ordered, later
duplicates replace in place). -/
def buildMap (rows : List StoreRow) : List (String × StoreRow) :=
  rows.foldl (fun m o => dictInsert m (effKey o) o) []

/-- The merge loop over the incoming objects (lines 778-809): an absent key
is inserted, a present key is overwritten and recorded in `updated` only
when the comparable views differ.  Returns the final map and the list of
keys pushed to `updatedRows`, in order. -/
def mergeStep (m : List (String × StoreRow)) (upd : List String) :
    List StoreRow → List (String × StoreRow) × List String
  | [] => (m, upd)
  | obj :: rest =>
    match dictGet m obj.key with
    | none => mergeStep (dictInsert m obj.key obj) upd rest
    | some prev =>
      if comparableOf prev = comparableOf obj then mergeStep m upd rest
      else mergeStep (dictInsert m obj.key obj) (upd ++ [obj.key]) rest

/-- JS `Set` built from a list of strings: order-preserving first-occurrence
deduplication. -/
def setList (xs : List String) : List String :=
  xs.foldl (fun acc x => if x ∈ acc then acc else acc ++ [x]) []

/-- The per-run address-to-coordinates dictionary `coordsByAddr`
(lines 733-737): for each filtered row in order, the geocoder outcome for
its address is stored when (and only when) it resolved.  `g` abstracts the
per-address result of `geocodeOneLine` within this run (the cache makes
repeated lookups of one address agree inside a run). -/
def coordsByAddr (raws : List RawRec) (g : String → Option Coords) :
    List (String × Coords) :=
  raws.foldl
    (fun d r =>
      match r.address with
      | some a =>
        match g a with
        | some c => dictInsert d a c
        | none => d
      | none => d)
    []

/-- The feature list of `toGeoJSON(items, coordsByAddr)`: the items whose
address has a truthy entry in the dictionary (a coordinate array is always
truthy).  The function is applied both to raw rows (daily snapshot) and to
store rows (live map), so it is parametrised by the address projection.
A JS `null` address is looked up under the property key `"null"`. -/
def toGeoJSONItems {α : Type} (addrOf : α → Option String) (items : List α)
    (dict : List (String × Coords)) : List α :=
  items.filter (fun r => (dictGet dict (propKey (addrOf r))).isSome)

/-- The keys recovered from a snapshot file when it is re-read on a later
run for the same date (lines 747-753): `properties.record` when truthy,
else the address-and-date composite — which coincides with `keyOf` of the
raw row the feature was built from. -/
def snapshotKeys (raws : List RawRec) (dict : List (String × Coords)) : List String :=
  (toGeoJSONItems RawRec.address raws dict).map keyOf

/-- Everything one scrape run persists from the cited merge-and-delta region
(lines 746-826): the rewritten NDJSON store, the snapshot keys written for
the target date, and the three delta lists. -/
structure RunOut : Type where
  store : List StoreRow
  snapKeys : List String
  deltaNew : List String
  deltaUpdated : List String
  deltaMissing : List String
deriving DecidableEq, Repr

/-- Embedding of the snapshot/merge/delta portion of one scrape run:
`store0` is the NDJSON store on disk, `priorSnap` the key list recovered
from the prior same-date snapshot file (empty when none exists), `raws`
the deduplicated rows already filtered to the target date, and `g` the
per-address geocoding outcome of this run.  Mirrors lines 732-826 of the
script: build `coordsByAddr`, write the snapshot, merge into `byKey`,
persist the map values, and write the `{new, updated, missing}` delta
computed against the prior snapshot keys. -/
def runMergeDelta (store0 : List StoreRow) (priorSnap : List String)
    (raws : List RawRec) (g : String → Option Coords) : RunOut :=
  let cd := coordsByAddr raws g
  let incoming := raws.map (fun r => objOf r (dictGet cd (propKey r.address)))
  let m0 := buildMap store0
  let res := mergeStep m0 [] incoming
  let priorKeys := setList priorSnap
  let currentKeys := setList (raws.map keyOf)
  { store := res.1.map (fun p => p.2)
    snapKeys := snapshotKeys raws cd
    deltaNew := currentKeys.filter (fun k => decide (k ∉ priorKeys))
    deltaUpdated := res.2
    deltaMissing := priorKeys.filter (fun k => decide (k ∉ currentKeys)) }

/-- The date-filtering of deduplicated scraped rows before the merge
(line 730): keep exactly the rows whose parsed date is the target UTC
day. -/
def filteredRows (unique : List RawRec) (targetMs : Int) : List RawRec :=
  unique.filter (fun r => sameUtcDay (r.date.bind parseUsDateToUtc) (some targetMs))

/-- The live-map window selection (line 830): store rows whose parsed date
is within the last `days` days of the run's UTC midnight. -/
def windowRows (allNow : List StoreRow) (days : Nat) (nowMid : Int) : List StoreRow :=
  allNow.filter (fun o => withinLastNDaysUtc (o.date.bind parseUsDateToUtc) days nowMid)

/-- The live-map coordinate dictionary `coordsDict` (lines 843-846), built
from the window rows that have both truthy coords and a truthy address. -/
def coordsDict (ws : List StoreRow) : List (String × Coords) :=
  ws.foldl
    (fun d o =>
      match o.coords, o.address with
      | some c, some a => if a = "" then d else dictInsert d a c
      | _, _ => d)
    []

/-- The features of the live map artifact (line 847):
`toGeoJSON(windowRows, coordsDict)`. -/
def liveMapItems (ws : List StoreRow) : List StoreRow :=
  toGeoJSONItems StoreRow.address ws (coordsDict ws)

/-- The parsed timestamps feeding the emitted min/max date range
(line 851): every window row's parsed date, geocoded or not. -/
def dateRangeTimes (ws : List StoreRow) : List Int :=
  (ws.map (fun o => o.date.bind parseUsDateToUtc)).filterMap id

/-- A deduplicated target-day row with a record number and an address that
the run fails to geocode. -/
def rawB : RawRec :=
  { record := some "BLD-1", address := some "100 Main St", date := some "03/01/2024" }

/-- A geocoder outcome resolving no address at all. -/
def gNone : String → Option Coords := fun _ => none

/-- A store row dated one day after the reference day used in the window
examples. -/
def futureRow : StoreRow := { key := "K", date := some "01/02/2026" }

/-- A window row whose scraped address is the literal string "null". -/
def rowNullStr : StoreRow :=
  { key := "K1", record := some "K1", address := some "null",
    date := some "01/01/2026", coords := some ((1 : Int), (2 : Int)) }

/-- A window row with a missing (JS `null`) address but resolved
coordinates. -/
def rowNoAddr : StoreRow :=
  { key := "K2", record := some "K2", address := none,
    date := some "01/01/2026", coords := some ((3 : Int), (4 : Int)) }

/-- An incoming row keyed "B" for the delta example. -/
def rawKeyB : RawRec := { record := some "B", status := some "Submitted" }

/-- An incoming row keyed "C" for the delta example. -/
def rawKeyC : RawRec := { record := some "C", status := some "Submitted" }

/-- The prior run's stored row for key "B", with an older status value. -/
def prevRowB : StoreRow := { key := "B", record := some "B", status := some "Open" }

/-- A store row copy with its coordinates cleared, used to state that window
selection and the emitted date range ignore geocoding results. -/
def stripCoords (o : StoreRow) : StoreRow := { o with coords := none }

theorem dictGet_nil {α : Type} (k : String) : dictGet ([] : List (String × α)) k = none := rfl

theorem dictGet_cons {α : Type} (p : String × α) (m : List (String × α)) (k : String) :
    dictGet (p :: m) k = if p.1 = k then some p.2 else dictGet m k := by
  by_cases h : p.1 = k <;> simp [dictGet, List.find?, h]

theorem dictGet_insert_self {α : Type} (m : List (String × α)) (k : String) (v : α) :
    dictGet (dictInsert m k v) k = some v := by
  induction m with
  | nil => simp [dictInsert, dictGet_cons]
  | cons p rest ih =>
    rw [dictInsert]
    by_cases h : p.1 = k
    · simp [h, dictGet_cons]
    · simp [h, dictGet_cons, ih]

theorem dictGet_insert_ne {α : Type} (m : List (String × α)) {k q : String} (v : α)
    (h : q ≠ k) : dictGet (dictInsert m k v) q = dictGet m q := by
  induction m with
  | nil => simp [dictInsert, dictGet_cons, Ne.symm h]
  | cons p rest ih =>
    rw [dictInsert]
    by_cases hp : p.1 = k
    · subst hp
      simp [dictGet_cons, Ne.symm h]
    · rw [if_neg hp, dictGet_cons, dictGet_cons, ih]

theorem mem_dictInsert {α : Type} (m : List (String × α)) (k : String) (v : α)
    (q : String × α) (h : q ∈ dictInsert m k v) : q ∈ m ∨ q = (k, v) := by
  induction m with
  | nil =>
    rw [dictInsert] at h
    simp at h
    right; exact h
  | cons p rest ih =>
    rw [dictInsert] at h
    by_cases hp : p.1 = k
    · rw [if_pos hp] at h
      rcases List.mem_cons.mp h with hh | hh
      · right; exact hh
      · left; exact List.mem_cons_of_mem _ hh
    · rw [if_neg hp] at h
      rcases List.mem_cons.mp h with hh | hh
      · left; exact hh ▸ List.mem_cons_self _ _
      · rcases ih hh with h2 | h2
        · left; exact List.mem_cons_of_mem _ h2
        · right; exact h2

theorem mem_keys_dictInsert {α : Type} (m : List (String × α)) (k : String) (v : α)
    (x : String) (h : x ∈ (dictInsert m k v).map Prod.fst) :
    x ∈ m.map Prod.fst ∨ x = k := by
  simp only [List.mem_map] at h
  rcases h with ⟨q, hq, hx⟩
  rcases mem_dictInsert m k v q hq with hh | hh
  · left; exact List.mem_map.mpr ⟨q, hh, hx⟩
  · right; rw [hh] at hx; exact hx ▸ rfl

theorem dictInsert_keys_nodup {α : Type} (m : List (String × α)) (k : String) (v : α)
    (h : (m.map Prod.fst).Nodup) : ((dictInsert m k v).map Prod.fst).Nodup := by
  induction m with
  | nil => simp [dictInsert]
  | cons p rest ih =>
    rw [dictInsert]
    simp only [List.map_cons, List.nodup_cons] at h
    by_cases hp : p.1 = k
    · rw [if_pos hp]
      simp only [List.map_cons, List.nodup_cons]
      exact ⟨hp ▸ h.1, h.2⟩
    · rw [if_neg hp]
      simp only [List.map_cons, List.nodup_cons]
      refine ⟨fun hc => ?_, ih h.2⟩
      rcases mem_keys_dictInsert rest k v p.1 hc with hh | hh
      · exact h.1 hh
      · exact hp hh

theorem dictInsert_append_of_not_mem {α : Type} (m : List (String × α)) (k : String) (v : α)
    (h : k ∉ m.map Prod.fst) : dictInsert m k v = m ++ [(k, v)] := by
  induction m with
  | nil => simp [dictInsert]
  | cons p rest ih =>
    simp only [List.map_cons, List.mem_cons, not_or] at h
    rw [dictInsert, if_neg (fun hh => h.1 hh.symm), ih h.2]
    simp

theorem mergeStep_cons (m : List (String × StoreRow)) (upd : List String)
    (obj : StoreRow) (rest : List StoreRow) :
    mergeStep m upd (obj :: rest) =
      match dictGet m obj.key with
      | none => mergeStep (dictInsert m obj.key obj) upd rest
      | some prev =>
        if comparableOf prev = comparableOf obj then mergeStep m upd rest
        else mergeStep (dictInsert m obj.key obj) (upd ++ [obj.key]) rest := rfl

theorem mergeStep_cons_new (m : List (String × StoreRow)) (upd : List String)
    (obj : StoreRow) (rest : List StoreRow) (h : dictGet m obj.key = none) :
    mergeStep m upd (obj :: rest) = mergeStep (dictInsert m obj.key obj) upd rest := by
  rw [mergeStep_cons, h]

theorem mergeStep_cons_same (m : List (String × StoreRow)) (upd : List String)
    (obj : StoreRow) (rest : List StoreRow) (prev : StoreRow)
    (h : dictGet m obj.key = some prev) (hc : comparableOf prev = comparableOf obj) :
    mergeStep m upd (obj :: rest) = mergeStep m upd rest := by
  rw [mergeStep_cons, h]
  exact if_pos hc

theorem mergeStep_cons_diff (m : List (String × StoreRow)) (upd : List String)
    (obj : StoreRow) (rest : List StoreRow) (prev : StoreRow)
    (h : dictGet m obj.key = some prev) (hc : comparableOf prev ≠ comparableOf obj) :
    mergeStep m upd (obj :: rest) =
      mergeStep (dictInsert m obj.key obj) (upd ++ [obj.key]) rest := by
  rw [mergeStep_cons, h]
  exact if_neg hc

theorem mergeStep_noop (inc : List StoreRow) :
    ∀ (m : List (String × StoreRow)) (upd : List String),
    (∀ obj ∈ inc, ∃ o, dictGet m obj.key = some o ∧ comparableOf o = comparableOf obj) →
    mergeStep m upd inc = (m, upd) := by
  induction inc with
  | nil => intro m upd _; rfl
  | cons obj rest ih =>
    intro m upd h
    obtain ⟨o, ho, hc⟩ := h obj (List.mem_cons_self _ _)
    rw [mergeStep_cons_same m upd obj rest o ho hc]
    exact ih m upd (fun x hx => h x (List.mem_cons_of_mem _ hx))

theorem mergeStep_get_notin (inc : List StoreRow) :
    ∀ (m : List (String × StoreRow)) (upd : List String) (k : String),
    k ∉ inc.map StoreRow.key →
    dictGet (mergeStep m upd inc).1 k = dictGet m k := by
  induction inc with
  | nil => intro m upd k _; rfl
  | cons obj rest ih =>
    intro m upd k hk
    simp only [List.map_cons, List.mem_cons, not_or] at hk
    cases h0 : dictGet m obj.key with
    | none =>
      rw [mergeStep_cons_new m upd obj rest h0, ih _ _ _ hk.2,
        dictGet_insert_ne _ _ hk.1]
    | some prev =>
      by_cases hc : comparableOf prev = comparableOf obj
      · rw [mergeStep_cons_same m upd obj rest prev h0 hc, ih _ _ _ hk.2]
      · rw [mergeStep_cons_diff m upd obj rest prev h0 hc, ih _ _ _ hk.2,
          dictGet_insert_ne _ _ hk.1]

theorem mergeStep_get_mem (inc : List StoreRow) :
    ∀ (m : List (String × StoreRow)) (upd : List String),
    (inc.map StoreRow.key).Nodup →
    ∀ obj ∈ inc, ∃ o, dictGet (mergeStep m upd inc).1 obj.key = some o ∧
      comparableOf o = comparableOf obj := by
  induction inc with
  | nil => intro m upd _ obj hobj; exact absurd hobj (List.not_mem_nil _)
  | cons hd rest ih =>
    intro m upd hnd obj hobj
    simp only [List.map_cons, List.nodup_cons] at hnd
    rcases List.mem_cons.mp hobj with hh | hh
    · subst hh
      cases h0 : dictGet m obj.key with
      | none =>
        refine ⟨obj, ?_, rfl⟩
        rw [mergeStep_cons_new m upd obj rest h0,
          mergeStep_get_notin _ _ _ _ hnd.1, dictGet_insert_self]
      | some prev =>
        by_cases hc : comparableOf prev = comparableOf obj
        · refine ⟨prev, ?_, hc⟩
          rw [mergeStep_cons_same m upd obj rest prev h0 hc,
            mergeStep_get_notin _ _ _ _ hnd.1, h0]
        · refine ⟨obj, ?_, rfl⟩
          rw [mergeStep_cons_diff m upd obj rest prev h0 hc,
            mergeStep_get_notin _ _ _ _ hnd.1, dictGet_insert_self]
    · cases h0 : dictGet m hd.key with
      | none =>
        rw [mergeStep_cons_new m upd hd rest h0]
        exact ih _ _ hnd.2 obj hh
      | some prev =>
        by_cases hc : comparableOf prev = comparableOf hd
        · rw [mergeStep_cons_same m upd hd rest prev h0 hc]
          exact ih _ _ hnd.2 obj hh
        · rw [mergeStep_cons_diff m upd hd rest prev h0 hc]
          exact ih _ _ hnd.2 obj hh

theorem mem_mergeStep (inc : List StoreRow) :
    ∀ (m : List (String × StoreRow)) (upd : List String) (p : String × StoreRow),
    p ∈ (mergeStep m upd inc).1 →
    p ∈ m ∨ ∃ obj ∈ inc, p = (obj.key, obj) := by
  induction inc with
  | nil => intro m upd p hp; left; exact hp
  | cons hd rest ih =>
    intro m upd p hp
    have step : ∀ m2 upd2, p ∈ (mergeStep m2 upd2 rest).1 →
        p ∈ m2 ∨ ∃ obj ∈ hd :: rest, p = (obj.key, obj) := by
      intro m2 upd2 h2
      rcases ih m2 upd2 p h2 with hh | ⟨obj, hoin, hoeq⟩
      · left; exact hh
      · right; exact ⟨obj, List.mem_cons_of_mem _ hoin, hoeq⟩
    cases h0 : dictGet m hd.key with
    | none =>
      rw [mergeStep_cons_new m upd hd rest h0] at hp
      rcases step _ _ hp with hh | hh
      · rcases mem_dictInsert _ _ _ _ hh with h2 | h2
        · left; exact h2
        · right; exact ⟨hd, List.mem_cons_self _ _, h2⟩
      · right; exact hh
    | some prev =>
      by_cases hc : comparableOf prev = comparableOf hd
      · rw [mergeStep_cons_same m upd hd rest prev h0 hc] at hp
        exact step _ _ hp
      · rw [mergeStep_cons_diff m upd hd rest prev h0 hc] at hp
        rcases step _ _ hp with hh | hh
        · rcases mem_dictInsert _ _ _ _ hh with h2 | h2
          · left; exact h2
          · right; exact ⟨hd, List.mem_cons_self _ _, h2⟩
        · right; exact hh

theorem mergeStep_keys_nodup (inc : List StoreRow) :
    ∀ (m : List (String × StoreRow)) (upd : List String),
    (m.map Prod.fst).Nodup → (((mergeStep m upd inc).1).map Prod.fst).Nodup := by
  induction inc with
  | nil => intro m upd h; exact h
  | cons hd rest ih =>
    intro m upd h
    cases h0 : dictGet m hd.key with
    | none =>
      rw [mergeStep_cons_new m upd hd rest h0]
      exact ih _ _ (dictInsert_keys_nodup _ _ _ h)
    | some prev =>
      by_cases hc : comparableOf prev = comparableOf hd
      · rw [mergeStep_cons_same m upd hd rest prev h0 hc]
        exact ih _ _ h
      · rw [mergeStep_cons_diff m upd hd rest prev h0 hc]
        exact ih _ _ (dictInsert_keys_nodup _ _ _ h)

theorem mem_buildMap_aux (rows : List StoreRow) :
    ∀ (acc : List (String × StoreRow)) (p : String × StoreRow),
    p ∈ rows.foldl (fun a o => dictInsert a (effKey o) o) acc →
    p ∈ acc ∨ ∃ o ∈ rows, p = (effKey o, o) := by
  induction rows with
  | nil => intro acc p hp; left; exact hp
  | cons hd rest ih =>
    intro acc p hp
    rw [List.foldl_cons] at hp
    rcases ih _ p hp with hh | ⟨o, hin, heq⟩
    · rcases mem_dictInsert _ _ _ _ hh with h2 | h2
      · left; exact h2
      · right; exact ⟨hd, List.mem_cons_self _ _, h2⟩
    · right; exact ⟨o, List.mem_cons_of_mem _ hin, heq⟩

theorem mem_buildMap (rows : List StoreRow) (p : String × StoreRow)
    (hp : p ∈ buildMap rows) : ∃ o ∈ rows, p = (effKey o, o) := by
  rcases mem_buildMap_aux rows [] p hp with hh | hh
  · exact absurd hh (List.not_mem_nil _)
  · exact hh

theorem buildMap_keys_nodup_aux (rows : List StoreRow) :
    ∀ (acc : List (String × StoreRow)), (acc.map Prod.fst).Nodup →
    ((rows.foldl (fun a o => dictInsert a (effKey o) o) acc).map Prod.fst).Nodup := by
  induction rows with
  | nil => intro acc h; exact h
  | cons hd rest ih =>
    intro acc h
    rw [List.foldl_cons]
    exact ih _ (dictInsert_keys_nodup _ _ _ h)

theorem buildMap_keys_nodup (rows : List StoreRow) :
    ((buildMap rows).map Prod.fst).Nodup :=
  buildMap_keys_nodup_aux rows [] List.nodup_nil

theorem buildMap_of_values (m : List (String × StoreRow)) :
    ∀ (acc : List (String × StoreRow)),
    (∀ p ∈ acc ++ m, p.1 = effKey p.2) →
    (((acc ++ m).map Prod.fst)).Nodup →
    (m.map Prod.snd).foldl (fun a o => dictInsert a (effKey o) o) acc = acc ++ m := by
  induction m with
  | nil =>
    intro acc _ _
    rw [List.map_nil, List.foldl_nil, List.append_nil]
  | cons hd rest ih =>
    intro acc hkeys hnd
    have hhd : hd.1 = effKey hd.2 := hkeys hd (by simp)
    have hnotin : effKey hd.2 ∉ acc.map Prod.fst := by
      intro hmem
      rw [List.map_append] at hnd
      have hdisj := List.disjoint_of_nodup_append hnd
      refine hdisj hmem ?_
      simp only [List.map_cons, List.mem_cons]
      left
      exact hhd.symm
    have step : dictInsert acc (effKey hd.2) hd.2 = acc ++ [(effKey hd.2, hd.2)] :=
      dictInsert_append_of_not_mem _ _ _ hnotin
    have hre : (acc ++ [(effKey hd.2, hd.2)]) ++ rest = acc ++ (hd :: rest) := by
      rw [List.append_assoc]
      congr 1
      rw [List.singleton_append]
      congr 1
      rw [← hhd]
    rw [List.map_cons, List.foldl_cons, step,
      ih (acc ++ [(effKey hd.2, hd.2)]) (by rw [hre]; exact hkeys) (by rw [hre]; exact hnd)]
    exact hre

theorem strOrEmpty_orNull (x : Option String) : strOrEmpty (orNull x) = strOrEmpty x := by
  cases x with
  | none => rfl
  | some s => by_cases h : s = "" <;> simp [orNull, strOrEmpty, h]

theorem orNull_none : orNull none = none := rfl

theorem orNull_some_empty : orNull (some "") = none := rfl

theorem orNull_some_ne (s : String) (h : s ≠ "") : orNull (some s) = some s := by
  simp [orNull, h]

theorem compositeKey_ne_empty (a b : String) : a ++ "|" ++ b ≠ "" := by
  intro h
  have hl := congrArg String.length h
  rw [String.length_append, String.length_append] at hl
  have h1 : ("|" : String).length = 1 := rfl
  have h2 : ("" : String).length = 0 := rfl
  omega

theorem keyOf_ne_empty (r : RawRec) : keyOf r ≠ "" := by
  cases hr : r.record with
  | none => simp only [keyOf, hr]; exact compositeKey_ne_empty _ _
  | some s =>
    by_cases h : s = ""
    · simp only [keyOf, hr, h, if_pos]
      exact compositeKey_ne_empty _ _
    · simp only [keyOf, hr, if_neg h]
      exact h

theorem objOf_key (r : RawRec) (c : Option Coords) : (objOf r c).key = keyOf r := rfl

theorem keyOfRow_objOf (r : RawRec) (c : Option Coords) :
    keyOfRow (objOf r c) = keyOf r := by
  cases hr : r.record with
  | none => simp [keyOfRow, objOf, keyOf, hr, orNull_none, strOrEmpty_orNull]
  | some s =>
    by_cases h : s = ""
    · subst h
      simp [keyOfRow, objOf, keyOf, hr, orNull_some_empty, strOrEmpty_orNull]
    · simp [keyOfRow, objOf, keyOf, hr, h, orNull_some_ne s h]

theorem effKey_objOf (r : RawRec) (c : Option Coords) :
    effKey (objOf r c) = keyOf r := by
  unfold effKey
  rw [objOf_key, if_neg (keyOf_ne_empty r)]

theorem monthCands_nil_of_not_digit {a : Char} (rest : List Char) (h : a.isDigit = false) :
    monthCands (a :: rest) = [] := by
  cases rest <;> simp [monthCands, h]

theorem scanMatch_none (cs : List Char) (h : ∀ c ∈ cs, c.isDigit = false) :
    scanMatch cs = none := by
  induction cs with
  | nil => rfl
  | cons c rest ih =>
    have hma : matchAt (c :: rest) = none := by
      unfold matchAt
      rw [monthCands_nil_of_not_digit rest (h c (List.mem_cons_self _ _))]
      rfl
    rw [scanMatch, hma]
    exact ih (fun x hx => h x (List.mem_cons_of_mem _ hx))

theorem parseUsDateToUtc_no_digits (s : String) (h : ∀ c ∈ s.data, c.isDigit = false) :
    parseUsDateToUtc s = none := by
  unfold parseUsDateToUtc
  rw [scanMatch_none s.data h]

/-- C4: for every parsed UTC-midnight date and reference midnight,
`withinLastNDaysUtc(d, N)` is true iff `d ≥ referenceDayMidnight − (N − 1)`
days; in particular a date exactly `N − 1` days before the reference day
qualifies, and a date exactly `N` days before does not.  Proved for every
`N : Nat`, which subsumes the claim's `N ≥ 1`. -/
theorem withinLastNDays_iff_cutoff (t ref : Int) (N : Nat) :
    (withinLastNDaysUtc (some t) N ref = true ↔ ref - ((N : Int) - 1) * msPerDay ≤ t)
    ∧ withinLastNDaysUtc (some (ref - ((N : Int) - 1) * msPerDay)) N ref = true
    ∧ withinLastNDaysUtc (some (ref - (N : Int) * msPerDay)) N ref = false := by
  refine ⟨?_, ?_, ?_⟩
  · simp [withinLastNDaysUtc]
  · simp [withinLastNDaysUtc]
  · simp only [withinLastNDaysUtc, msPerDay, decide_eq_false_iff_not, not_le]
    omega

/-- C7: a deduplicated scraped row survives the pre-merge filter iff it is
one of the scraped rows and its date parses to an instant on the same UTC
calendar day as the target date; rows with unparseable dates or other days
are discarded before the merge. -/
theorem filtered_rows_target_day (u : List RawRec) (targetMs : Int) (r : RawRec) :
    r ∈ filteredRows u targetMs ↔
      r ∈ u ∧ ∃ t, r.date.bind parseUsDateToUtc = some t ∧
        t.fdiv msPerDay = targetMs.fdiv msPerDay := by
  rw [filteredRows, List.mem_filter]
  constructor
  · rintro ⟨hu, hb⟩
    refine ⟨hu, ?_⟩
    cases hp : r.date.bind parseUsDateToUtc with
    | none => rw [hp] at hb; exact absurd hb (by simp [sameUtcDay])
    | some t =>
      rw [hp] at hb
      exact ⟨t, rfl, by simpa [sameUtcDay] using hb⟩
  · rintro ⟨hu, t, hp, ht⟩
    exact ⟨hu, by simp [sameUtcDay, hp, ht]⟩

/-- C5 (counterexample): with reference day 2026-01-01 UTC and a 7-day
window, a store row dated 2026-01-02 — one day after the reference day and
therefore outside the claimed closed interval — is nevertheless included in
the window projection, because the filter has no upper bound. -/
theorem window_includes_future_date :
    parseUsDateToUtc "01/01/2026" = some 1767225600000
    ∧ parseUsDateToUtc "01/02/2026" = some (1767225600000 + msPerDay)
    ∧ windowRows [futureRow] 7 1767225600000 = [futureRow] :=
  ⟨rfl, rfl, rfl⟩

/-- C5 (amended): the window projection includes exactly the store records
whose parsed date is at or after `reference − (N − 1)` days — there is no
upper bound, so dates after the reference day are also included — and
inclusion is independent of geocoding success: clearing every row's
coordinates changes neither the selected rows nor the timestamp list used
for the emitted min/max date range. -/
theorem window_membership_amended (rows : List StoreRow) (days : Nat) (ref : Int)
    (o : StoreRow) :
    (o ∈ windowRows rows days ref ↔
      o ∈ rows ∧ ∃ t, o.date.bind parseUsDateToUtc = some t ∧
        ref - ((days : Int) - 1) * msPerDay ≤ t)
    ∧ windowRows (rows.map stripCoords) days ref
        = (windowRows rows days ref).map stripCoords
    ∧ dateRangeTimes (windowRows (rows.map stripCoords) days ref)
        = dateRangeTimes (windowRows rows days ref) := by
  refine ⟨?_, ?_, ?_⟩
  · rw [windowRows, List.mem_filter]
    constructor
    · rintro ⟨hu, hb⟩
      refine ⟨hu, ?_⟩
      cases hp : o.date.bind parseUsDateToUtc with
      | none => rw [hp] at hb; exact absurd hb (by simp [withinLastNDaysUtc])
      | some t =>
        rw [hp] at hb
        exact ⟨t, rfl, by simpa [withinLastNDaysUtc] using hb⟩
    · rintro ⟨hu, t, hp, ht⟩
      exact ⟨hu, by simp [withinLastNDaysUtc, hp, ht]⟩
  · rw [windowRows, windowRows, List.filter_map]
    rfl
  · rw [windowRows, windowRows, List.filter_map]
    rw [dateRangeTimes, dateRangeTimes, List.map_map]
    rfl

/-- C6 (counterexample): a matched month of 13 and a matched February 30
are not rejected: JS `Date.UTC` normalises them by rollover, so
`parseUsDateToUtc` returns an instant (2025-01-01 and 2024-03-01
respectively), not the null result the claim requires. -/
theorem parse_invalid_calendar_not_null :
    parseUsDateToUtc "13/01/2024" = some 1735689600000
    ∧ parseUsDateToUtc "2/30/2024" = some 1709251200000
    ∧ parseUsDateToUtc "13/01/2024" ≠ none
    ∧ parseUsDateToUtc "2/30/2024" ≠ none :=
  ⟨rfl, rfl, by decide, by decide⟩

/-- C6 (amended): `parseUsDateToUtc` returns a null result and never throws
when the input does not match the numeric-separator date shape — in
particular for any string without a digit, for digits without separators,
and when a matched component is zero — but matched month/day values outside
the calendar range are normalised by date rollover (month 13 of 2024 parses
to 2025-01-01, February 30 of 2024 to 2024-03-01) instead of yielding a
null result. -/
theorem parse_failure_amended :
    (∀ s : String, (∀ c ∈ s.data, c.isDigit = false) → parseUsDateToUtc s = none)
    ∧ parseUsDateToUtc "12345" = none
    ∧ parseUsDateToUtc "1/0/2024" = none
    ∧ parseUsDateToUtc "0/15/2024" = none
    ∧ parseUsDateToUtc "13/01/2024" = some 1735689600000
    ∧ parseUsDateToUtc "2/30/2024" = some 1709251200000 :=
  ⟨parseUsDateToUtc_no_digits, rfl, rfl, rfl, rfl, rfl⟩

/-- Witness for the amended C6 statement at a concrete digit-free input. -/
theorem parse_failure_amended_app : parseUsDateToUtc "no date here" = none :=
  parse_failure_amended.1 "no date here" (by decide)

/-- C1: an address present in the geocode cache with an explicit negative
(null) entry is retried: the cache check is a JS truthiness test, the
stored null is falsy, and the function proceeds to the external call —
here the retry succeeds, overwrites the negative entry and returns
coordinates instead of returning null without any external call. -/
theorem geocode_negative_cache_retried :
    geocodeOneLine (some "123 Main St") [("123 Main St", (none : Option Coords))]
        (ExtOutcome.success ((10 : Int), (20 : Int)))
      = { ret := some ((10 : Int), (20 : Int)),
          cache := [("123 Main St", some ((10 : Int), (20 : Int)))],
          externalCalled := true } := by
  decide

/-- C9: for every non-empty address string, after `geocodeOneLine` returns
the cache holds an entry for that address — a coordinate pair or an
explicit negative — and the returned value equals that entry; moreover
whenever the external request was attempted and failed (no match or a
thrown fetch/timeout error, both caught), the function returns null and the
entry is the negative marker.  Exceptions are absorbed: every outcome
produces a value. -/
theorem geocode_cache_consistent (a : String) (cache : GeoCache) (ext : ExtOutcome)
    (h : a ≠ "") :
    (∃ v, dictGet (geocodeOneLine (some a) cache ext).cache a = some v ∧
      (geocodeOneLine (some a) cache ext).ret = v)
    ∧ ((geocodeOneLine (some a) cache ext).externalCalled = true →
        (ext = ExtOutcome.noMatch ∨ ext = ExtOutcome.fetchError) →
        ((geocodeOneLine (some a) cache ext).ret = none ∧
         dictGet (geocodeOneLine (some a) cache ext).cache a = some none)) := by
  cases hdg : dictGet cache a with
  | some v =>
    cases v with
    | some c =>
      constructor
      · exact ⟨some c, by simp [geocodeOneLine, h, hdg], by simp [geocodeOneLine, h, hdg]⟩
      · simp [geocodeOneLine, h, hdg]
    | none =>
      by_cases hs : hasLetter a = false ∨ (jsTrim a).length < 5
      · constructor
        · exact ⟨none, by simp [geocodeOneLine, h, hdg, hs, dictGet_insert_self],
            by simp [geocodeOneLine, h, hdg, hs]⟩
        · simp [geocodeOneLine, h, hdg, hs]
      · cases ext with
        | success c =>
          constructor
          · exact ⟨some c, by simp [geocodeOneLine, h, hdg, hs, dictGet_insert_self],
              by simp [geocodeOneLine, h, hdg, hs]⟩
          · simp [geocodeOneLine, h, hdg, hs]
        | noMatch =>
          constructor
          · exact ⟨none, by simp [geocodeOneLine, h, hdg, hs, dictGet_insert_self],
              by simp [geocodeOneLine, h, hdg, hs]⟩
          · simp [geocodeOneLine, h, hdg, hs, dictGet_insert_self]
        | fetchError =>
          constructor
          · exact ⟨none, by simp [geocodeOneLine, h, hdg, hs, dictGet_insert_self],
              by simp [geocodeOneLine, h, hdg, hs]⟩
          · simp [geocodeOneLine, h, hdg, hs, dictGet_insert_self]
  | none =>
    by_cases hs : hasLetter a = false ∨ (jsTrim a).length < 5
    · constructor
      · exact ⟨none, by simp [geocodeOneLine, h, hdg, hs, dictGet_insert_self],
          by simp [geocodeOneLine, h, hdg, hs]⟩
      · simp [geocodeOneLine, h, hdg, hs]
    · cases ext with
      | success c =>
        constructor
        · exact ⟨some c, by simp [geocodeOneLine, h, hdg, hs, dictGet_insert_self],
            by simp [geocodeOneLine, h, hdg, hs]⟩
        · simp [geocodeOneLine, h, hdg, hs]
      | noMatch =>
        constructor
        · exact ⟨none, by simp [geocodeOneLine, h, hdg, hs, dictGet_insert_self],
            by simp [geocodeOneLine, h, hdg, hs]⟩
        · simp [geocodeOneLine, h, hdg, hs, dictGet_insert_self]
      | fetchError =>
        constructor
        · exact ⟨none, by simp [geocodeOneLine, h, hdg, hs, dictGet_insert_self],
            by simp [geocodeOneLine, h, hdg, hs]⟩
        · simp [geocodeOneLine, h, hdg, hs, dictGet_insert_self]

/-- Witness for C9 at a concrete failing request: after the call the cache
entry for the address exists and equals the returned value. -/
theorem geocode_cache_consistent_app :
    dictGet (geocodeOneLine (some "200 Peachtree St") [] ExtOutcome.fetchError).cache
        "200 Peachtree St"
      = some (geocodeOneLine (some "200 Peachtree St") [] ExtOutcome.fetchError).ret := by
  obtain ⟨⟨v, hv, hr⟩, _⟩ :=
    geocode_cache_consistent "200 Peachtree St" [] ExtOutcome.fetchError (by decide)
  rw [hv, hr]

theorem coordsDict_aux (ws : List StoreRow) :
    ∀ (d : List (String × Coords)) (k : String),
    (dictGet (ws.foldl (fun d o =>
      match o.coords, o.address with
      | some c, some a => if a = "" then d else dictInsert d a c
      | _, _ => d) d) k).isSome = true →
    (dictGet d k).isSome = true ∨ ∃ o ∈ ws, o.address = some k := by
  induction ws with
  | nil => intro d k h; left; exact h
  | cons o rest ih =>
    intro d k h
    rw [List.foldl_cons] at h
    rcases ih _ k h with hh | ⟨o2, h2, h3⟩
    · cases hc : o.coords with
      | none =>
        simp only [hc] at hh
        left; exact hh
      | some c =>
        cases ha : o.address with
        | none =>
          simp only [hc, ha] at hh
          left; exact hh
        | some a =>
          simp only [hc, ha] at hh
          by_cases he : a = ""
          · rw [if_pos he] at hh
            left; exact hh
          · rw [if_neg he] at hh
            by_cases hk : k = a
            · right
              exact ⟨o, List.mem_cons_self _ _, by rw [ha, hk]⟩
            · rw [dictGet_insert_ne _ _ hk] at hh
              left; exact hh
    · right; exact ⟨o2, List.mem_cons_of_mem _ h2, h3⟩

theorem coordsDict_address (ws : List StoreRow) (k : String)
    (h : (dictGet (coordsDict ws) k).isSome = true) :
    ∃ o ∈ ws, o.address = some k := by
  rcases coordsDict_aux ws [] k h with hh | hh
  · exact absurd hh (by simp [dictGet])
  · exact hh

/-- C10 (counterexample): a window record with a missing (null) address and
resolved coordinates is not necessarily excluded from the live-map feature
list: JS property lookup converts the null address to the property key
"null", so when another window row's scraped address is the literal string
"null", the null-address record matches its dictionary entry and is
emitted. -/
theorem null_address_included_via_string_null :
    rowNoAddr.address = none
    ∧ rowNoAddr.coords = some ((3 : Int), (4 : Int))
    ∧ rowNoAddr ∈ liveMapItems [rowNullStr, rowNoAddr] := by
  refine ⟨rfl, rfl, ?_⟩
  decide

/-- C10 (amended): provided no window record's address is the literal
string "null", every window record whose address field is null is excluded
from the emitted live-map feature collection even when its own coords field
is a resolved pair, because the coordinate dictionary and the feature
filter are both keyed by address (the null address looks up the property
key "null") rather than by the record's own coords. -/
theorem null_address_excluded_amended (ws : List StoreRow)
    (hns : ∀ o ∈ ws, o.address ≠ some "null") (o : StoreRow) (ho : o ∈ ws)
    (ha : o.address = none) : o ∉ liveMapItems ws := by
  intro hmem
  rw [liveMapItems, toGeoJSONItems, List.mem_filter] at hmem
  have hsome := hmem.2
  rw [ha] at hsome
  rcases coordsDict_address ws "null" hsome with ⟨o2, h2, h3⟩
  exact hns o2 h2 h3

/-- Witness for the amended C10 statement: a lone null-address record with
coordinates is excluded from the live map features. -/
theorem null_address_excluded_amended_app : rowNoAddr ∉ liveMapItems [rowNoAddr] :=
  null_address_excluded_amended [rowNoAddr] (by decide) rowNoAddr (by decide) rfl

theorem mergeStep_nil (m : List (String × StoreRow)) (upd : List String) :
    mergeStep m upd [] = (m, upd) := rfl

/-- C2: when the prior same-date snapshot contained exactly the keys
`[kA, keyOf rB]` and the current run's incoming rows are `[rB, rC]` (all
three keys distinct), the written delta has `new = [keyOf rC]` and
`missing = [kA]`, and `updated` contains the key of `rB` iff the non-key
fields of the freshly built object for `rB` differ from the store's entry
for that key, i.e. from what the prior run stored. -/
theorem delta_report_correct (store0 : List StoreRow) (g : String → Option Coords)
    (kA : String) (rB rC : RawRec) (prevB : StoreRow)
    (hAB : kA ≠ keyOf rB) (hAC : kA ≠ keyOf rC) (hBC : keyOf rB ≠ keyOf rC)
    (hprev : dictGet (buildMap store0) (keyOf rB) = some prevB) :
    (runMergeDelta store0 [kA, keyOf rB] [rB, rC] g).deltaNew = [keyOf rC]
    ∧ (runMergeDelta store0 [kA, keyOf rB] [rB, rC] g).deltaMissing = [kA]
    ∧ (keyOf rB ∈ (runMergeDelta store0 [kA, keyOf rB] [rB, rC] g).deltaUpdated ↔
        comparableOf prevB ≠
          comparableOf (objOf rB
            (dictGet (coordsByAddr [rB, rC] g) (propKey rB.address)))) := by
  have hBA : keyOf rB ≠ kA := Ne.symm hAB
  have hCA : keyOf rC ≠ kA := Ne.symm hAC
  have hCB : keyOf rC ≠ keyOf rB := Ne.symm hBC
  have hsetCur : setList [keyOf rB, keyOf rC] = [keyOf rB, keyOf rC] := by
    simp [setList, hCB]
  have hsetPrior : setList [kA, keyOf rB] = [kA, keyOf rB] := by
    simp [setList, hBA]
  refine ⟨?_, ?_, ?_⟩
  · simp only [runMergeDelta, List.map_cons, List.map_nil]
    simp only [hsetCur, hsetPrior]
    simp [hBA, hCA, hCB]
  · simp only [runMergeDelta, List.map_cons, List.map_nil]
    simp only [hsetCur, hsetPrior]
    simp [hAB, hAC, hBC]
  · simp only [runMergeDelta, List.map_cons, List.map_nil]
    have hgetB : dictGet (buildMap store0)
        (objOf rB (dictGet (coordsByAddr [rB, rC] g) (propKey rB.address))).key
          = some prevB := by
      rw [objOf_key]; exact hprev
    by_cases hcmp : comparableOf prevB =
        comparableOf (objOf rB (dictGet (coordsByAddr [rB, rC] g) (propKey rB.address)))
    · rw [mergeStep_cons_same _ _ _ _ _ hgetB hcmp]
      cases h2 : dictGet (buildMap store0)
          (objOf rC (dictGet (coordsByAddr [rB, rC] g) (propKey rC.address))).key with
      | none =>
        rw [mergeStep_cons_new _ _ _ _ h2, mergeStep_nil]
        simp [hcmp]
      | some prevC =>
        by_cases hc2 : comparableOf prevC =
            comparableOf (objOf rC (dictGet (coordsByAddr [rB, rC] g) (propKey rC.address)))
        · rw [mergeStep_cons_same _ _ _ _ _ h2 hc2, mergeStep_nil]
          simp [hcmp]
        · rw [mergeStep_cons_diff _ _ _ _ _ h2 hc2, mergeStep_nil]
          simp only [List.nil_append]
          constructor
          · intro hmem
            rcases List.mem_singleton.mp hmem with hh
            rw [objOf_key] at hh
            exact absurd hh hBC
          · intro hne; exact absurd hcmp hne
    · rw [mergeStep_cons_diff _ _ _ _ _ hgetB hcmp]
      have hCkey : dictGet (dictInsert (buildMap store0)
            (objOf rB (dictGet (coordsByAddr [rB, rC] g) (propKey rB.address))).key
            (objOf rB (dictGet (coordsByAddr [rB, rC] g) (propKey rB.address))))
          (objOf rC (dictGet (coordsByAddr [rB, rC] g) (propKey rC.address))).key
            = dictGet (buildMap store0)
          (objOf rC (dictGet (coordsByAddr [rB, rC] g) (propKey rC.address))).key := by
        apply dictGet_insert_ne
        rw [objOf_key, objOf_key]
        exact hCB
      cases h2 : dictGet (buildMap store0)
          (objOf rC (dictGet (coordsByAddr [rB, rC] g) (propKey rC.address))).key with
      | none =>
        rw [mergeStep_cons_new _ _ _ _ (by rw [hCkey]; exact h2), mergeStep_nil]
        simp [objOf_key, hcmp]
      | some prevC =>
        by_cases hc2 : comparableOf prevC =
            comparableOf (objOf rC (dictGet (coordsByAddr [rB, rC] g) (propKey rC.address)))
        · rw [mergeStep_cons_same _ _ _ _ _ (by rw [hCkey]; exact h2) hc2, mergeStep_nil]
          simp [objOf_key, hcmp]
        · rw [mergeStep_cons_diff _ _ _ _ _ (by rw [hCkey]; exact h2) hc2, mergeStep_nil]
          simp [objOf_key, hcmp]

/-- Witness for C2 at a concrete store and row pair: prior snapshot keys
`["A", "B"]`, incoming keys `["B", "C"]`, store entry for "B" present. -/
theorem delta_report_correct_app :
    (runMergeDelta [prevRowB] ["A", keyOf rawKeyB] [rawKeyB, rawKeyC] gNone).deltaNew
        = [keyOf rawKeyC]
    ∧ (runMergeDelta [prevRowB] ["A", keyOf rawKeyB] [rawKeyB, rawKeyC] gNone).deltaMissing
        = ["A"]
    ∧ (keyOf rawKeyB ∈
        (runMergeDelta [prevRowB] ["A", keyOf rawKeyB] [rawKeyB, rawKeyC] gNone).deltaUpdated ↔
        comparableOf prevRowB ≠
          comparableOf (objOf rawKeyB
            (dictGet (coordsByAddr [rawKeyB, rawKeyC] gNone) (propKey rawKeyB.address)))) :=
  delta_report_correct [prevRowB] gNone "A" rawKeyB rawKeyC prevRowB
    (by decide) (by decide) (by decide) (by decide)

/-- C8: after a merge, the persisted store rows have pairwise-distinct keys
in the claim's sense (record number when present, else the address-date
composite), and every persisted row's stored key field agrees with that
derived key; the agreement hypothesis on the pre-existing store is exactly
the property the merge re-establishes, so it holds inductively for every
store this code ever writes (vacuously for the empty first store). -/
theorem store_keys_unique (store0 : List StoreRow) (priorSnap : List String)
    (raws : List RawRec) (g : String → Option Coords)
    (h : ∀ o ∈ store0, o.key = "" ∨ o.key = keyOfRow o) :
    ((runMergeDelta store0 priorSnap raws g).store.map keyOfRow).Nodup
    ∧ ∀ o ∈ (runMergeDelta store0 priorSnap raws g).store,
        o.key = "" ∨ o.key = keyOfRow o := by
  have hstore : (runMergeDelta store0 priorSnap raws g).store
      = (mergeStep (buildMap store0) []
          (raws.map (fun r => objOf r
            (dictGet (coordsByAddr raws g) (propKey r.address))))).1.map
          (fun p => p.2) := rfl
  have hentry : ∀ p ∈ (mergeStep (buildMap store0) []
      (raws.map (fun r => objOf r
        (dictGet (coordsByAddr raws g) (propKey r.address))))).1,
      p.1 = keyOfRow p.2 ∧ (p.2.key = "" ∨ p.2.key = keyOfRow p.2) := by
    intro p hp
    rcases mem_mergeStep _ _ _ p hp with hh | ⟨obj, hoin, hoeq⟩
    · rcases mem_buildMap store0 p hh with ⟨o, ho, rfl⟩
      refine ⟨?_, h o ho⟩
      rcases h o ho with hk | hk
      · simp [effKey, hk]
      · by_cases hz : o.key = ""
        · simp [effKey, hz, hk]
        · simp [effKey, hz, hk]
    · rcases List.mem_map.mp hoin with ⟨r, _, rfl⟩
      subst hoeq
      refine ⟨?_, Or.inr ?_⟩ <;> simp [objOf_key, keyOfRow_objOf]
  have hnd : ((mergeStep (buildMap store0) []
      (raws.map (fun r => objOf r
        (dictGet (coordsByAddr raws g) (propKey r.address))))).1.map Prod.fst).Nodup :=
    mergeStep_keys_nodup _ _ _ (buildMap_keys_nodup store0)
  constructor
  · rw [hstore, List.map_map]
    have heq : (mergeStep (buildMap store0) []
        (raws.map (fun r => objOf r
          (dictGet (coordsByAddr raws g) (propKey r.address))))).1.map
          (keyOfRow ∘ fun p => p.2)
        = (mergeStep (buildMap store0) []
          (raws.map (fun r => objOf r
            (dictGet (coordsByAddr raws g) (propKey r.address))))).1.map Prod.fst := by
      apply List.map_congr_left
      intro p hp
      exact ((hentry p hp).1).symm
    rw [heq]
    exact hnd
  · intro o ho
    rw [hstore] at ho
    rcases List.mem_map.mp ho with ⟨p, hp, rfl⟩
    exact (hentry p hp).2

/-- Witness for C8 at a concrete run: empty prior store, one incoming row. -/
theorem store_keys_unique_app :
    ((runMergeDelta [] [] [rawB] gNone).store.map keyOfRow).Nodup
    ∧ ∀ o ∈ (runMergeDelta [] [] [rawB] gNone).store,
        o.key = "" ∨ o.key = keyOfRow o :=
  store_keys_unique [] [] [rawB] gNone (by simp)

/-- C3 (counterexample): merging the same single incoming record twice for
the same target date does not give an empty `new` list on the second run:
the record's address never geocodes, so it is absent from the snapshot
written by the first run, and the second run's delta reports it as new
again. -/
theorem merge_second_run_new_nonempty :
    (runMergeDelta (runMergeDelta [] [] [rawB] gNone).store
        (runMergeDelta [] [] [rawB] gNone).snapKeys [rawB] gNone).deltaNew = ["BLD-1"]
    ∧ (runMergeDelta (runMergeDelta [] [] [rawB] gNone).store
        (runMergeDelta [] [] [rawB] gNone).snapKeys [rawB] gNone).deltaNew ≠ [] :=
  ⟨by decide, by decide⟩

/-- C3 (amended): merging the same incoming record set (with the same
per-address geocoding results and pairwise-distinct keys) for the same
target date twice yields a store identical to the one after the first
merge, and the second run's `updated` list is empty; the second run's
`new` list, however, equals the current keys absent from the first run's
snapshot — exactly the keys of incoming records that lack coordinates —
so it is empty only when every incoming record was geocoded. -/
theorem merge_idempotent_amended (store0 : List StoreRow) (snap0 : List String)
    (raws : List RawRec) (g : String → Option Coords)
    (hnodup : (raws.map keyOf).Nodup) :
    (runMergeDelta (runMergeDelta store0 snap0 raws g).store
        (runMergeDelta store0 snap0 raws g).snapKeys raws g).store
      = (runMergeDelta store0 snap0 raws g).store
    ∧ (runMergeDelta (runMergeDelta store0 snap0 raws g).store
        (runMergeDelta store0 snap0 raws g).snapKeys raws g).deltaUpdated = []
    ∧ (runMergeDelta (runMergeDelta store0 snap0 raws g).store
        (runMergeDelta store0 snap0 raws g).snapKeys raws g).deltaNew
      = (setList (raws.map keyOf)).filter
          (fun k => decide (k ∉ setList ((runMergeDelta store0 snap0 raws g).snapKeys))) := by
  have hkeys : (raws.map (fun r => objOf r
      (dictGet (coordsByAddr raws g) (propKey r.address)))).map StoreRow.key
      = raws.map keyOf := by
    rw [List.map_map]
    apply List.map_congr_left
    intro r _
    simp [objOf_key]
  have hincnd : ((raws.map (fun r => objOf r
      (dictGet (coordsByAddr raws g) (propKey r.address)))).map StoreRow.key).Nodup := by
    rw [hkeys]; exact hnodup
  have hWFentry : ∀ p ∈ (mergeStep (buildMap store0) []
      (raws.map (fun r => objOf r
        (dictGet (coordsByAddr raws g) (propKey r.address))))).1,
      p.1 = effKey p.2 := by
    intro p hp
    rcases mem_mergeStep _ _ _ p hp with hh | ⟨obj, hoin, rfl⟩
    · rcases mem_buildMap store0 p hh with ⟨o, _, rfl⟩; rfl
    · rcases List.mem_map.mp hoin with ⟨r, _, rfl⟩
      simp [effKey_objOf, objOf_key]
  have hWFnd : ((mergeStep (buildMap store0) []
      (raws.map (fun r => objOf r
        (dictGet (coordsByAddr raws g) (propKey r.address))))).1.map Prod.fst).Nodup :=
    mergeStep_keys_nodup _ _ _ (buildMap_keys_nodup store0)
  have hbm : buildMap ((mergeStep (buildMap store0) []
      (raws.map (fun r => objOf r
        (dictGet (coordsByAddr raws g) (propKey r.address))))).1.map (fun p => p.2))
      = (mergeStep (buildMap store0) []
        (raws.map (fun r => objOf r
          (dictGet (coordsByAddr raws g) (propKey r.address))))).1 := by
    have h2 := buildMap_of_values (mergeStep (buildMap store0) []
      (raws.map (fun r => objOf r
        (dictGet (coordsByAddr raws g) (propKey r.address))))).1 []
      (fun p hp => hWFentry p hp) hWFnd
    exact h2
  have hnoop : mergeStep (buildMap ((mergeStep (buildMap store0) []
      (raws.map (fun r => objOf r
        (dictGet (coordsByAddr raws g) (propKey r.address))))).1.map (fun p => p.2))) []
      (raws.map (fun r => objOf r
        (dictGet (coordsByAddr raws g) (propKey r.address))))
      = ((mergeStep (buildMap store0) []
        (raws.map (fun r => objOf r
          (dictGet (coordsByAddr raws g) (propKey r.address))))).1, []) := by
    rw [hbm]
    apply mergeStep_noop
    intro obj hobj
    exact mergeStep_get_mem _ _ _ hincnd obj hobj
  refine ⟨?_, ?_, rfl⟩
  · have hrw : (runMergeDelta (runMergeDelta store0 snap0 raws g).store
        (runMergeDelta store0 snap0 raws g).snapKeys raws g).store
        = (mergeStep (buildMap ((mergeStep (buildMap store0) []
          (raws.map (fun r => objOf r
            (dictGet (coordsByAddr raws g) (propKey r.address))))).1.map (fun p => p.2))) []
          (raws.map (fun r => objOf r
            (dictGet (coordsByAddr raws g) (propKey r.address))))).1.map (fun p => p.2) := rfl
    rw [hrw, hnoop]
    rfl
  · have hrw : (runMergeDelta (runMergeDelta store0 snap0 raws g).store
        (runMergeDelta store0 snap0 raws g).snapKeys raws g).deltaUpdated
        = (mergeStep (buildMap ((mergeStep (buildMap store0) []
          (raws.map (fun r => objOf r
            (dictGet (coordsByAddr raws g) (propKey r.address))))).1.map (fun p => p.2))) []
          (raws.map (fun r => objOf r
            (dictGet (coordsByAddr raws g) (propKey r.address))))).2 := rfl
    rw [hrw, hnoop]

/-- Witness for the amended C3 statement at a concrete single-record run
with distinct keys. -/
theorem merge_idempotent_amended_app :
    (runMergeDelta (runMergeDelta [] [] [rawB] gNone).store
        (runMergeDelta [] [] [rawB] gNone).snapKeys [rawB] gNone).store
      = (runMergeDelta [] [] [rawB] gNone).store
    ∧ (runMergeDelta (runMergeDelta [] [] [rawB] gNone).store
        (runMergeDelta [] [] [rawB] gNone).snapKeys [rawB] gNone).deltaUpdated = []
    ∧ (runMergeDelta (runMergeDelta [] [] [rawB] gNone).store
        (runMergeDelta [] [] [rawB] gNone).snapKeys [rawB] gNone).deltaNew
      = (setList ([rawB].map keyOf)).filter
          (fun k => decide (k ∉ setList ((runMergeDelta [] [] [rawB] gNone).snapKeys))) :=
  merge_idempotent_amended [] [] [rawB] gNone (by decide)
